import Mathlib

/-!
Shallow embedding of the region-aware text layout engine of
`insert-image` (`src/index.js`).  JavaScript numbers are modelled as
rationals (`ℚ`), strings as `List Char`, and the per-function control
flow is translated statement by statement from the source.
-/

namespace InsertImage

/-- A bold segment `{start, length}` (`src/index.js`, rich-text model).
JS numbers are modelled as `ℤ` since re-offsetting can in principle
produce any integer. -/
structure Seg where
  start : ℤ
  length : ℤ
deriving DecidableEq, Repr

/-- A color segment `{start, length, color}`. -/
structure ColorSeg where
  start : ℤ
  length : ℤ
  color : String
deriving DecidableEq, Repr

/-- A paragraph `{text, colorSegments, boldSegments}` as consumed by the
wrap loop and the font-size solver. -/
structure Paragraph where
  text : List Char
  colorSegments : List ColorSeg
  boldSegments : List Seg
deriving DecidableEq, Repr

/-- `calculateTextWidth`'s character classification (`src/index.js`
lines 1169-1199): the narrow character set. -/
def narrowChars : List Char :=
  ['i', 'j', 'l', ',', '.', '\'', '"', '|', '!', '(', ')', '[', ']',
   Char.ofNat 123, Char.ofNat 125, '/', '-', '_']

/-- The wide character set of `calculateTextWidth`. -/
def wideChars : List Char :=
  ['m', 'w', 'W', 'M', '@', 'Q', 'O', 'C', 'D', 'G', '%', '&', '#',
   'A', 'H', 'N', 'U', 'X']

/-- The space character set of `calculateTextWidth` (space and tab). -/
def spaceChars : List Char := [' ', '\t']

/-- The per-character width ratio: the if/else chain of the loop body of
`calculateTextWidth` (widthRatios: default 0.55, narrow 0.35, wide 0.75,
space 0.3). -/
def charRatio (c : Char) : ℚ :=
  if c ∈ spaceChars then 3 / 10
  else if c ∈ narrowChars then 7 / 20
  else if c ∈ wideChars then 3 / 4
  else 11 / 20

/-- `calculateTextWidth(text, fontSize)` (`src/index.js` lines 1169-1199):
sums `fontSize * ratio` over the characters.  (The JS loop also tracks a
`prevChar` variable that it never reads; it is omitted.) -/
def calculateTextWidth (text : List Char) (fontSize : ℚ) : ℚ :=
  text.foldl (fun totalWidth c => totalWidth + fontSize * charRatio c) 0

theorem calculateTextWidth_single (c : Char) (f : ℚ) :
    calculateTextWidth [c] f = f * charRatio c := by
  simp [calculateTextWidth]

theorem charRatio_pos (c : Char) : 0 < charRatio c := by
  unfold charRatio
  split <;> try norm_num
  split <;> try norm_num
  split <;> norm_num

/-- C7: for every single character, the estimated width is `fontSize × ratio`
with the four bucket ratios of the source (whitespace bucket = the source's
space set {space, tab}, ratio 0.30; narrow 0.35; wide 0.75; default 0.55),
and width is strictly monotone in the font size on positive sizes. -/
theorem width_bucket_monotone (c : Char) (f1 f2 : ℚ)
    (h1 : 0 < f1) (h12 : f1 < f2) :
    calculateTextWidth [c] f1 < calculateTextWidth [c] f2 ∧
    (∀ f : ℚ, calculateTextWidth [c] f = f * charRatio c) ∧
    (c ∈ spaceChars → charRatio c = 3 / 10) ∧
    (c ∈ narrowChars → charRatio c = 7 / 20) ∧
    (c ∈ wideChars → charRatio c = 3 / 4) ∧
    (c ∉ spaceChars → c ∉ narrowChars → c ∉ wideChars →
      charRatio c = 11 / 20) := by
  refine ⟨?_, fun f => calculateTextWidth_single c f, ?_, ?_, ?_, ?_⟩
  · rw [calculateTextWidth_single, calculateTextWidth_single]
    exact mul_lt_mul_of_pos_right h12 (charRatio_pos c)
  · intro h; fin_cases h <;> rfl
  · intro h; fin_cases h <;> rfl
  · intro h; fin_cases h <;> rfl
  · intro h1 h2 h3; simp [charRatio, h1, h2, h3]

/-- Witness for C7 at `c = 'a'`, `f1 = 1`, `f2 = 2`. -/
theorem width_bucket_monotone_witness :
    (0 : ℚ) < 1 ∧ (1 : ℚ) < 2 ∧
    (calculateTextWidth ['a'] 1 < calculateTextWidth ['a'] 2 ∧
     (∀ f : ℚ, calculateTextWidth ['a'] f = f * charRatio 'a') ∧
     ('a' ∈ spaceChars → charRatio 'a' = 3 / 10) ∧
     ('a' ∈ narrowChars → charRatio 'a' = 7 / 20) ∧
     ('a' ∈ wideChars → charRatio 'a' = 3 / 4) ∧
     ('a' ∉ spaceChars → 'a' ∉ narrowChars → 'a' ∉ wideChars →
       charRatio 'a' = 11 / 20)) :=
  ⟨by norm_num, by norm_num,
   width_bucket_monotone 'a' 1 2 (by norm_num) (by norm_num)⟩

/-- `String.prototype.replace` with a global single-character pattern:
every occurrence of `needle` is replaced by `repl`. -/
def replaceAllChar (needle : Char) (repl : List Char) : List Char → List Char
  | [] => []
  | c :: cs =>
      (if c = needle then repl else [c]) ++ replaceAllChar needle repl cs

/-- The escaping chain of `drawRegionsWithText`'s colorSegments branch
(`src/index.js` lines 605-610): `&`, `<`, `>`, `"`, `'` replaced in that
order by their entities. -/
def escapeSegmentText (s : List Char) : List Char :=
  replaceAllChar '\'' ("&apos;".toList)
    (replaceAllChar '"' ("&quot;".toList)
      (replaceAllChar '>' ("&gt;".toList)
        (replaceAllChar '<' ("&lt;".toList)
          (replaceAllChar '&' ("&amp;".toList) s))))

/-- The escaping chain of `drawRegionsWithText`'s plain-text branch
(`src/index.js` lines 628-633), identical to the colorSegments one. -/
def escapePlainText (s : List Char) : List Char :=
  replaceAllChar '\'' ("&apos;".toList)
    (replaceAllChar '"' ("&quot;".toList)
      (replaceAllChar '>' ("&gt;".toList)
        (replaceAllChar '<' ("&lt;".toList)
          (replaceAllChar '&' ("&amp;".toList) s))))

/-- The per-character entity map the chain should amount to. -/
def escChar (c : Char) : List Char :=
  if c = '&' then "&amp;".toList
  else if c = '<' then "&lt;".toList
  else if c = '>' then "&gt;".toList
  else if c = '"' then "&quot;".toList
  else if c = '\'' then "&apos;".toList
  else [c]

theorem replaceAllChar_append (n : Char) (r a b : List Char) :
    replaceAllChar n r (a ++ b) =
      replaceAllChar n r a ++ replaceAllChar n r b := by
  induction a with
  | nil => rfl
  | cons c cs ih => simp [replaceAllChar, ih]

theorem escapeSegmentText_cons (c : Char) (s : List Char) :
    escapeSegmentText (c :: s) =
      escapeSegmentText [c] ++ escapeSegmentText s := by
  show escapeSegmentText ([c] ++ s) = _
  simp only [escapeSegmentText, replaceAllChar_append]

theorem escapeSegmentText_single (c : Char) :
    escapeSegmentText [c] = escChar c := by
  by_cases h1 : c = '&'
  · subst h1; rfl
  by_cases h2 : c = '<'
  · subst h2; rfl
  by_cases h3 : c = '>'
  · subst h3; rfl
  by_cases h4 : c = '"'
  · subst h4; rfl
  by_cases h5 : c = '\''
  · subst h5; rfl
  simp [escapeSegmentText, replaceAllChar, escChar, h1, h2, h3, h4, h5]

theorem escapeSegmentText_flatten (s : List Char) :
    escapeSegmentText s = (s.map escChar).flatten := by
  induction s with
  | nil => rfl
  | cons c cs ih =>
      rw [escapeSegmentText_cons, escapeSegmentText_single, ih]
      simp

theorem escChar_no_raw {c : Char} {d : Char}
    (hd : d = '<' ∨ d = '>' ∨ d = '"' ∨ d = '\'') : d ∉ escChar c := by
  unfold escChar
  rcases hd with h | h | h | h <;> subst h <;>
    (repeat' split) <;>
    simp_all [String.toList, eq_comm]

theorem escapeSegmentText_no_raw (s : List Char) (d : Char)
    (hd : d = '<' ∨ d = '>' ∨ d = '"' ∨ d = '\'') :
    d ∉ escapeSegmentText s := by
  rw [escapeSegmentText_flatten]
  intro hmem
  rcases List.mem_flatten.1 hmem with ⟨l, hl, hdl⟩
  rcases List.mem_map.1 hl with ⟨c, _, rfl⟩
  exact escChar_no_raw hd hdl

/-- C9: both text-embedding branches of the compositing path
(`drawRegionsWithText`) escape the five XML metacharacters: the two
replacement chains coincide with the per-character entity map (so each
metacharacter is replaced by its entity, with no double escaping), and the
escaped text contains no raw `<`, `>`, `"` or `'`; every `&` left is the
head of an entity produced by `escChar`. -/
theorem drawRegionsWithText_escapes (s : List Char) :
    escapeSegmentText s = (s.map escChar).flatten ∧
    escapePlainText s = (s.map escChar).flatten ∧
    '<' ∉ escapeSegmentText s ∧ '>' ∉ escapeSegmentText s ∧
    '"' ∉ escapeSegmentText s ∧ '\'' ∉ escapeSegmentText s ∧
    '<' ∉ escapePlainText s ∧ '>' ∉ escapePlainText s ∧
    '"' ∉ escapePlainText s ∧ '\'' ∉ escapePlainText s := by
  have hpe : escapePlainText s = escapeSegmentText s := rfl
  rw [hpe]
  refine ⟨escapeSegmentText_flatten s, escapeSegmentText_flatten s,
    ?_, ?_, ?_, ?_, ?_, ?_, ?_, ?_⟩ <;>
    exact escapeSegmentText_no_raw s _ (by simp)

/-- `clearOldestCache` (`src/index.js` lines 160-166): the image cache as a
FIFO list of entry byte sizes together with the tracked total size.  On an
empty cache the function returns immediately and changes nothing. -/
structure CacheState where
  entries : List ℕ
  currentCacheSize : ℤ
deriving DecidableEq, Repr

/-- The 100 MB cache budget `MAX_CACHE_SIZE`. -/
def MAX_CACHE_SIZE : ℤ := 100 * 1024 * 1024

def clearOldestCache (s : CacheState) : CacheState :=
  match s.entries with
  | [] => s
  | oldest :: rest => ⟨rest, s.currentCacheSize - oldest⟩

/-- The guard of `readImageFile`'s eviction loop (`src/index.js` line 179):
`currentCacheSize + imageBuffer.length > MAX_CACHE_SIZE`. -/
def evictionGuard (imageBufferLength : ℤ) (s : CacheState) : Prop :=
  MAX_CACHE_SIZE < s.currentCacheSize + imageBufferLength

instance (n : ℤ) (s : CacheState) : Decidable (evictionGuard n s) := by
  unfold evictionGuard; infer_instance

/-- C3 (refuted): on an empty cache, with an image buffer strictly larger
than `MAX_CACHE_SIZE`, the eviction loop of `readImageFile` never exits:
after any number of `clearOldestCache` steps the loop guard still holds,
because `clearOldestCache` makes no progress on an empty cache. -/
theorem readImageFile_eviction_diverges (n : ℕ) :
    evictionGuard (MAX_CACHE_SIZE + 1)
      (clearOldestCache^[n] ⟨[], 0⟩) := by
  have hfix : clearOldestCache^[n] (⟨[], 0⟩ : CacheState) = ⟨[], 0⟩ := by
    induction n with
    | zero => rfl
    | succ k ih => rw [Function.iterate_succ_apply', ih]; rfl
  rw [hfix]
  unfold evictionGuard
  norm_num

/-- A candidate rectangle `{x, y, width, height}` pushed during the grid
scan of `findEmptyRegions` (image-pixel coordinates). -/
structure RawRegion where
  x : ℕ
  y : ℕ
  width : ℕ
  height : ℕ
deriving DecidableEq, Repr

/-- A final region object of `findEmptyRegions` with its `area` tag.  The
constant decorative fields (`type:"rectangle"`, `color:"blue"`,
`strokeWidth:1`) carry no information and are omitted. -/
structure Region where
  x : ℕ
  y : ℕ
  width : ℕ
  height : ℕ
  area : ℕ
deriving DecidableEq, Repr

/-- The fixed grid cell size of `findEmptyRegions`. -/
def cellSize : ℕ := 5

/-- The grid-marking double loop of `findEmptyRegions` (`src/index.js`
lines 334-344): cell `(gridX, gridY)` is occupied iff some in-bounds pixel
with `Math.floor(x/cellSize) = gridX` and `Math.floor(y/cellSize) = gridY`
has intensity `< 200`. -/
def cellOccupied (width height : ℕ) (pix : ℕ → ℕ → ℕ)
    (gridX gridY : ℕ) : Bool :=
  (List.range height).any fun y =>
    (List.range width).any fun x =>
      decide (pix y x < 200) && decide (x / cellSize = gridX) &&
        decide (y / cellSize = gridY)

/-- The inner row check (`src/index.js` lines 352-358): a grid row is empty
iff no cell of it (over the full grid width `Math.ceil(width/cellSize)`) is
occupied. -/
def rowEmpty (width height : ℕ) (pix : ℕ → ℕ → ℕ) (gridY : ℕ) : Bool :=
  (List.range ((width + cellSize - 1) / cellSize)).all fun gridX =>
    !cellOccupied width height pix gridX gridY

/-- The mutable state of the row scan: `currentEmptyHeight`, `startY` and
the accumulated `regions` array. -/
structure ScanState where
  currentEmptyHeight : ℕ
  startY : ℕ
  regions : List RawRegion
deriving DecidableEq, Repr

/-- One iteration of the row scan (`src/index.js` lines 350-376): an empty
row extends the current run (recording `startY` when it begins); an occupied
row flushes the run as a region when it spans at least
`Math.ceil(minHeight/cellSize)` grid rows. -/
def scanStep (width height : ℕ) (pix : ℕ → ℕ → ℕ) (minHeight : ℕ)
    (s : ScanState) (y : ℕ) : ScanState :=
  if rowEmpty width height pix y then
    { currentEmptyHeight := s.currentEmptyHeight + 1,
      startY := if s.currentEmptyHeight = 0 then y else s.startY,
      regions := s.regions }
  else
    if (minHeight + cellSize - 1) / cellSize ≤ s.currentEmptyHeight then
      { currentEmptyHeight := 0, startY := s.startY,
        regions := s.regions ++
          [⟨0, s.startY * cellSize, width, s.currentEmptyHeight * cellSize⟩] }
    else
      { currentEmptyHeight := 0, startY := s.startY, regions := s.regions }

/-- The row scan over all grid rows plus the trailing-run check
(`src/index.js` lines 347-386). -/
def scanRegions (width height : ℕ) (pix : ℕ → ℕ → ℕ)
    (minHeight : ℕ) : List RawRegion :=
  let gridHeight := (height + cellSize - 1) / cellSize
  let final := (List.range gridHeight).foldl
    (scanStep width height pix minHeight) ⟨0, 0, []⟩
  if (minHeight + cellSize - 1) / cellSize ≤ final.currentEmptyHeight then
    final.regions ++
      [⟨0, final.startY * cellSize, width, final.currentEmptyHeight * cellSize⟩]
  else
    final.regions

/-- One iteration of the merge loop (`src/index.js` lines 392-408).  The
gap test is JS number subtraction, modelled in `ℤ`.  The merged height
`region.y + region.height - currentRegion.y` is computed in `ℕ`: the scan
emits regions in strictly increasing `y`, so the subtraction never
truncates on reachable inputs. -/
def mergeStep (acc : List RawRegion × Option RawRegion)
    (region : RawRegion) : List RawRegion × Option RawRegion :=
  match acc.2 with
  | none => (acc.1, some region)
  | some currentRegion =>
      if (region.y : ℤ) - (currentRegion.y + currentRegion.height) <
          cellSize * 4 then
        (acc.1, some { currentRegion with
          height := region.y + region.height - currentRegion.y })
      else
        (acc.1 ++ [currentRegion], some region)

/-- The full merge pass (`src/index.js` lines 389-412), including the final
`if (currentRegion) mergedRegions.push(currentRegion)`. -/
def mergeRegions (regions : List RawRegion) : List RawRegion :=
  let acc := regions.foldl mergeStep ([], none)
  match acc.2 with
  | some currentRegion => acc.1 ++ [currentRegion]
  | none => acc.1

/-- Tagging a region with `area = width * height`. -/
def addArea (r : RawRegion) : Region :=
  ⟨r.x, r.y, r.width, r.height, r.width * r.height⟩

/-- The sort order of `(a, b) => b.area - a.area`: descending area. -/
def areaDesc (r1 r2 : Region) : Prop := r2.area ≤ r1.area

instance : DecidableRel areaDesc := fun r1 r2 =>
  inferInstanceAs (Decidable (r2.area ≤ r1.area))

instance : IsTotal Region areaDesc :=
  ⟨fun r1 r2 => le_total r2.area r1.area⟩

instance : IsTrans Region areaDesc :=
  ⟨fun _ _ _ h1 h2 => le_trans h2 h1⟩

/-- `findEmptyRegions(imageBuffer, minWidth = 100, minHeight = 30)`
(`src/index.js` lines 315-429).  The decoded grayscale raster is the triple
`width`, `height`, `pix`; `minWidth` is accepted and — exactly as in the
source — never used.  `Array.prototype.sort` with the consistent comparator
`(a, b) => b.area - a.area` is modelled as sorting by descending area. -/
def findEmptyRegions (width height : ℕ) (pix : ℕ → ℕ → ℕ)
    (minWidth minHeight : ℕ) : List Region :=
  List.insertionSort areaDesc
    (((mergeRegions (scanRegions width height pix minHeight)).filter
        (fun region => minHeight ≤ region.height)).map addArea)

/-- C4: for every raster input, the output of `findEmptyRegions` is sorted
by area descending, each region's `area` tag is `width × height`, and no
region's height is below `minHeight`. -/
theorem findEmptyRegions_sorted_minHeight (width height : ℕ)
    (pix : ℕ → ℕ → ℕ) (minWidth minHeight : ℕ) :
    List.Sorted areaDesc (findEmptyRegions width height pix minWidth minHeight) ∧
    (∀ r ∈ findEmptyRegions width height pix minWidth minHeight,
      r.area = r.width * r.height) ∧
    ∀ r ∈ findEmptyRegions width height pix minWidth minHeight,
      minHeight ≤ r.height := by
  refine ⟨List.sorted_insertionSort areaDesc _, ?_, ?_⟩ <;>
  · intro r hr
    have hmem : r ∈ (((mergeRegions
        (scanRegions width height pix minHeight)).filter
          (fun region => minHeight ≤ region.height)).map addArea) :=
      ((List.perm_insertionSort areaDesc _).mem_iff).1 hr
    rcases List.mem_map.1 hmem with ⟨r0, hr0, rfl⟩
    have := (List.mem_filter.1 hr0).2
    simpa [addArea] using this

theorem cellOccupied_false_of_white (width height : ℕ) (pix : ℕ → ℕ → ℕ)
    (gx j : ℕ)
    (hwhite : ∀ y, y < height → y / cellSize = j →
      ∀ x, x < width → 200 ≤ pix y x) :
    cellOccupied width height pix gx j = false := by
  simp only [cellOccupied, List.any_eq_false, List.any_eq_true,
    List.mem_range, Bool.and_eq_true, decide_eq_true_eq, not_exists, not_and]
  intro y hy x hx
  rintro ⟨hpix, -⟩ hyj
  exact absurd hpix (not_lt.2 (hwhite y hy hyj x hx))

theorem rowEmpty_true_of_white (width height : ℕ) (pix : ℕ → ℕ → ℕ)
    (j : ℕ)
    (hwhite : ∀ y, y < height → y / cellSize = j →
      ∀ x, x < width → 200 ≤ pix y x) :
    rowEmpty width height pix j = true := by
  simp only [rowEmpty, List.all_eq_true, List.mem_range, Bool.not_eq_true']
  intro gx _
  exact cellOccupied_false_of_white width height pix gx j hwhite

theorem rowEmpty_false_of_dark (width height : ℕ) (pix : ℕ → ℕ → ℕ)
    (j y0 : ℕ) (hW : 0 < width) (hy0 : y0 < height)
    (hy0j : y0 / cellSize = j) (hdark : pix y0 0 < 200) :
    rowEmpty width height pix j = false := by
  rw [rowEmpty, List.all_eq_false]
  refine ⟨0, List.mem_range.2 ?_, ?_⟩
  · simp only [cellSize]; omega
  · have hocc : cellOccupied width height pix 0 j = true := by
      simp only [cellOccupied, List.any_eq_true, List.mem_range,
        Bool.and_eq_true, decide_eq_true_eq]
      exact ⟨y0, hy0, 0, hW, ⟨hdark, by simp⟩, hy0j⟩
    simp [hocc]

theorem scan_fold_empty_pos (width height : ℕ) (pix : ℕ → ℕ → ℕ)
    (minHeight : ℕ) (k : ℕ) :
    ∀ (i c s : ℕ) (regs : List RawRegion), c ≠ 0 →
    (∀ j, i ≤ j → j < i + k → rowEmpty width height pix j = true) →
    (List.range' i k).foldl (scanStep width height pix minHeight)
        ⟨c, s, regs⟩ = ⟨c + k, s, regs⟩ := by
  induction k with
  | zero => intro i c s regs _ _; simp
  | succ k ih =>
      intro i c s regs hc hrow
      rw [List.range'_succ, List.foldl_cons]
      have hri : rowEmpty width height pix i = true :=
        hrow i le_rfl (by omega)
      have hstep : scanStep width height pix minHeight ⟨c, s, regs⟩ i =
          ⟨c + 1, s, regs⟩ := by
        simp [scanStep, hri, hc]
      rw [hstep,
        ih (i + 1) (c + 1) s regs (by omega)
          (fun j h1 h2 => hrow j (by omega) (by omega))]
      congr 1
      omega

theorem scan_fold_empty_zero (width height : ℕ) (pix : ℕ → ℕ → ℕ)
    (minHeight : ℕ) (k i s : ℕ) (regs : List RawRegion)
    (hrow : ∀ j, i ≤ j → j < i + k → rowEmpty width height pix j = true) :
    (List.range' i k).foldl (scanStep width height pix minHeight)
        ⟨0, s, regs⟩ = ⟨k, if k = 0 then s else i, regs⟩ := by
  cases k with
  | zero => simp
  | succ k =>
      rw [List.range'_succ, List.foldl_cons]
      have hri : rowEmpty width height pix i = true :=
        hrow i le_rfl (by omega)
      have hstep : scanStep width height pix minHeight ⟨0, s, regs⟩ i =
          ⟨1, i, regs⟩ := by
        simp [scanStep, hri]
      rw [hstep,
        scan_fold_empty_pos width height pix minHeight k (i + 1) 1 i regs
          (by omega) (fun j h1 h2 => hrow j (by omega) (by omega))]
      simp [Nat.add_comm]

/-- C5: on an all-white raster of height at least `minHeight`,
`findEmptyRegions` returns exactly one region: `x = 0`, `y = 0`, the full
image width, and the full image height rounded up to the cell size (the
last two conjuncts bound the rounding by one cell). -/
theorem findEmptyRegions_allWhite (width height : ℕ) (pix : ℕ → ℕ → ℕ)
    (minWidth minHeight : ℕ)
    (hwhite : ∀ y, y < height → ∀ x, x < width → 200 ≤ pix y x)
    (hmin : minHeight ≤ height) :
    findEmptyRegions width height pix minWidth minHeight =
      [⟨0, 0, width, (height + cellSize - 1) / cellSize * cellSize,
        width * ((height + cellSize - 1) / cellSize * cellSize)⟩] ∧
    height ≤ (height + cellSize - 1) / cellSize * cellSize ∧
    (height + cellSize - 1) / cellSize * cellSize < height + cellSize := by
  have hrows : ∀ j, rowEmpty width height pix j = true := fun j =>
    rowEmpty_true_of_white width height pix j
      (fun y hy _ x hx => hwhite y hy x hx)
  have hscan : scanRegions width height pix minHeight =
      [⟨0, 0, width, (height + cellSize - 1) / cellSize * cellSize⟩] := by
    simp only [scanRegions]
    rw [List.range_eq_range',
      scan_fold_empty_zero width height pix minHeight _ 0 0 []
        (fun j _ _ => hrows j)]
    have hq : (minHeight + cellSize - 1) / cellSize ≤
        (height + cellSize - 1) / cellSize :=
      Nat.div_le_div_right (by omega)
    simp only [hq, if_true]
    cases h0 : (height + cellSize - 1) / cellSize with
    | zero => simp [h0, cellSize]
    | succ n => simp [h0]
  have hfilter : minHeight ≤ (height + cellSize - 1) / cellSize * cellSize := by
    have : height ≤ (height + cellSize - 1) / cellSize * cellSize := by
      simp only [cellSize]; omega
    omega
  refine ⟨?_, by simp only [cellSize]; omega, by simp only [cellSize]; omega⟩
  unfold findEmptyRegions
  rw [hscan]
  simp [mergeRegions, mergeStep, List.filter, hfilter, addArea,
    List.insertionSort, List.orderedInsert]

/-- A concrete all-white raster. -/
def allWhitePix : ℕ → ℕ → ℕ := fun _ _ => 255

/-- Witness for C5 on a concrete all-white 10×30 raster with the default
`minHeight = 30`. -/
theorem findEmptyRegions_allWhite_witness :
    (∀ y, y < 30 → ∀ x, x < 10 → 200 ≤ allWhitePix y x) ∧ 30 ≤ 30 ∧
    (findEmptyRegions 10 30 allWhitePix 100 30 =
      [⟨0, 0, 10, (30 + cellSize - 1) / cellSize * cellSize,
        10 * ((30 + cellSize - 1) / cellSize * cellSize)⟩] ∧
     30 ≤ (30 + cellSize - 1) / cellSize * cellSize ∧
     (30 + cellSize - 1) / cellSize * cellSize < 30 + cellSize) :=
  ⟨fun _ _ _ _ => by norm_num [allWhitePix], le_rfl,
   findEmptyRegions_allWhite 10 30 allWhitePix 100 30
     (fun _ _ _ _ => by norm_num [allWhitePix]) le_rfl⟩

theorem scan_fold_occupied_zero (width height : ℕ) (pix : ℕ → ℕ → ℕ)
    (minHeight : ℕ) (hq : 0 < (minHeight + cellSize - 1) / cellSize)
    (k : ℕ) :
    ∀ (i s : ℕ) (regs : List RawRegion),
    (∀ j, i ≤ j → j < i + k → rowEmpty width height pix j = false) →
    (List.range' i k).foldl (scanStep width height pix minHeight)
        ⟨0, s, regs⟩ = ⟨0, s, regs⟩ := by
  induction k with
  | zero => intro i s regs _; simp
  | succ k ih =>
      intro i s regs hrow
      rw [List.range'_succ, List.foldl_cons]
      have hri : rowEmpty width height pix i = false :=
        hrow i le_rfl (by omega)
      have hstep : scanStep width height pix minHeight ⟨0, s, regs⟩ i =
          ⟨0, s, regs⟩ := by
        simp only [scanStep, hri, Bool.false_eq_true, if_false]
        rw [if_neg (by omega)]
      rw [hstep]
      exact ih (i + 1) s regs (fun j h1 h2 => hrow j (by omega) (by omega))

theorem scan_fold_occupied (width height : ℕ) (pix : ℕ → ℕ → ℕ)
    (minHeight : ℕ) (hq : 0 < (minHeight + cellSize - 1) / cellSize)
    (k i c s : ℕ) (regs : List RawRegion) (hk : 0 < k)
    (hrow : ∀ j, i ≤ j → j < i + k → rowEmpty width height pix j = false) :
    (List.range' i k).foldl (scanStep width height pix minHeight)
        ⟨c, s, regs⟩ =
      ⟨0, s, regs ++
        if (minHeight + cellSize - 1) / cellSize ≤ c then
          [⟨0, s * cellSize, width, c * cellSize⟩]
        else []⟩ := by
  obtain ⟨k', rfl⟩ : ∃ k', k = k' + 1 := ⟨k - 1, by omega⟩
  rw [List.range'_succ, List.foldl_cons]
  have hri : rowEmpty width height pix i = false := hrow i le_rfl (by omega)
  have hstep : scanStep width height pix minHeight ⟨c, s, regs⟩ i =
      ⟨0, s, regs ++
        if (minHeight + cellSize - 1) / cellSize ≤ c then
          [⟨0, s * cellSize, width, c * cellSize⟩]
        else []⟩ := by
    simp only [scanStep, hri, Bool.false_eq_true, if_false]
    split
    · rfl
    · simp
  rw [hstep]
  exact scan_fold_occupied_zero width height pix minHeight hq k' (i + 1) s _
    (fun j h1 h2 => hrow j (by omega) (by omega))

/-- C6: a white image with one fully dark full-width horizontal band
`[a, b)` of height at least `4 × cellSize = 20` separating two white bands
of heights `a ≥ 30` and `height - b ≥ 30` yields exactly two regions — the
two white bands (heights rounded to whole grid cells) — not merged. -/
theorem findEmptyRegions_darkBand_splits (width height : ℕ)
    (pix : ℕ → ℕ → ℕ) (a b : ℕ) (hW : 0 < width) (ha : 30 ≤ a)
    (hab : a + 20 ≤ b) (hbH : b + 30 ≤ height)
    (hwhite1 : ∀ y, y < a → ∀ x, x < width → 200 ≤ pix y x)
    (hdark : ∀ y, y < b → a ≤ y → ∀ x, x < width → pix y x < 200)
    (hwhite2 : ∀ y, y < height → b ≤ y → ∀ x, x < width → 200 ≤ pix y x) :
    (findEmptyRegions width height pix 100 30).length = 2 ∧
    (⟨0, 0, width, a / 5 * 5, width * (a / 5 * 5)⟩ : Region) ∈
      findEmptyRegions width height pix 100 30 ∧
    (⟨0, (b + 4) / 5 * 5, width, ((height + 4) / 5 - (b + 4) / 5) * 5,
        width * (((height + 4) / 5 - (b + 4) / 5) * 5)⟩ : Region) ∈
      findEmptyRegions width height pix 100 30 := by
  have hc5 : cellSize = 5 := rfl
  -- row classification
  have hrow1 : ∀ j, j < a / 5 → rowEmpty width height pix j = true := by
    intro j hj
    refine rowEmpty_true_of_white width height pix j ?_
    intro y hy hyj x hx
    refine hwhite1 y ?_ x hx
    rw [hc5] at hyj
    omega
  have hrowD : ∀ j, a / 5 ≤ j → j < (b + 4) / 5 →
      rowEmpty width height pix j = false := by
    intro j hj1 hj2
    refine rowEmpty_false_of_dark width height pix j (max (5 * j) a) hW ?_ ?_
      (hdark _ ?_ ?_ 0 hW)
    · omega
    · rw [hc5]; omega
    · omega
    · omega
  have hrow2 : ∀ j, (b + 4) / 5 ≤ j → rowEmpty width height pix j = true := by
    intro j hj
    refine rowEmpty_true_of_white width height pix j ?_
    intro y hy hyj x hx
    refine hwhite2 y hy ?_ x hx
    rw [hc5] at hyj
    omega
  -- the scan visits the three bands of grid rows in order
  have hsplit : List.range ((height + 4) / 5) =
      List.range' 0 (a / 5) ++ List.range' (a / 5) ((b + 4) / 5 - a / 5) ++
        List.range' ((b + 4) / 5) ((height + 4) / 5 - (b + 4) / 5) := by
    have e1 : List.range' 0 (a / 5) ++
        List.range' (a / 5) ((b + 4) / 5 - a / 5) =
        List.range' 0 ((b + 4) / 5) := by
      have h := List.range'_append 0 (a / 5) ((b + 4) / 5 - a / 5) 1
      simp only [one_mul, Nat.zero_add] at h
      rw [h]
      congr 1
      omega
    have e2 : List.range' 0 ((b + 4) / 5) ++
        List.range' ((b + 4) / 5) ((height + 4) / 5 - (b + 4) / 5) =
        List.range' 0 ((height + 4) / 5) := by
      have h := List.range'_append 0 ((b + 4) / 5)
        ((height + 4) / 5 - (b + 4) / 5) 1
      simp only [one_mul, Nat.zero_add] at h
      rw [h]
      congr 1
      omega
    rw [List.range_eq_range', ← e2, ← e1]
  have hq6 : (30 + cellSize - 1) / cellSize = 6 := by rw [hc5]
  have hf1 : (List.range' 0 (a / 5)).foldl (scanStep width height pix 30)
      ⟨0, 0, []⟩ = ⟨a / 5, 0, []⟩ := by
    rw [scan_fold_empty_zero width height pix 30 (a / 5) 0 0 []
      (fun j _ h2 => hrow1 j (by omega))]
    simp
  have hf2 : (List.range' (a / 5) ((b + 4) / 5 - a / 5)).foldl
      (scanStep width height pix 30) ⟨a / 5, 0, []⟩ =
      ⟨0, 0, [⟨0, 0, width, a / 5 * cellSize⟩]⟩ := by
    rw [scan_fold_occupied width height pix 30 (by rw [hq6]; omega)
      ((b + 4) / 5 - a / 5) (a / 5) (a / 5) 0 [] (by omega)
      (fun j h1 h2 => hrowD j h1 (by omega))]
    rw [if_pos (by rw [hq6]; omega)]
    simp
  have hf3 : (List.range' ((b + 4) / 5) ((height + 4) / 5 - (b + 4) / 5)).foldl
      (scanStep width height pix 30) ⟨0, 0, [⟨0, 0, width, a / 5 * cellSize⟩]⟩ =
      ⟨(height + 4) / 5 - (b + 4) / 5, (b + 4) / 5,
        [⟨0, 0, width, a / 5 * cellSize⟩]⟩ := by
    rw [scan_fold_empty_zero width height pix 30
      ((height + 4) / 5 - (b + 4) / 5) ((b + 4) / 5) 0 _
      (fun j h1 h2 => hrow2 j (by omega))]
    rw [if_neg (by omega)]
  have hscan : scanRegions width height pix 30 =
      [⟨0, 0, width, a / 5 * cellSize⟩,
       ⟨0, (b + 4) / 5 * cellSize, width,
         ((height + 4) / 5 - (b + 4) / 5) * cellSize⟩] := by
    simp only [scanRegions]
    rw [show (height + cellSize - 1) / cellSize = (height + 4) / 5 from by
      rw [hc5]
      omega]
    rw [hsplit, List.foldl_append, List.foldl_append, hf1, hf2, hf3]
    simp only [hq6]
    rw [if_pos (by omega)]
    rfl
  have hmerge : mergeRegions (scanRegions width height pix 30) =
      [⟨0, 0, width, a / 5 * cellSize⟩,
       ⟨0, (b + 4) / 5 * cellSize, width,
         ((height + 4) / 5 - (b + 4) / 5) * cellSize⟩] := by
    rw [hscan]
    simp only [mergeRegions, List.foldl_cons, List.foldl_nil, mergeStep]
    rw [if_neg (by
      simp only [hc5]
      push_cast
      omega)]
    simp
  have hout : findEmptyRegions width height pix 100 30 =
      List.insertionSort areaDesc
        [⟨0, 0, width, a / 5 * cellSize, width * (a / 5 * cellSize)⟩,
         ⟨0, (b + 4) / 5 * cellSize, width,
           ((height + 4) / 5 - (b + 4) / 5) * cellSize,
           width * (((height + 4) / 5 - (b + 4) / 5) * cellSize)⟩] := by
    unfold findEmptyRegions
    rw [hmerge]
    rw [List.filter_cons_of_pos (by
        simp only [decide_eq_true_eq, hc5]
        omega),
      List.filter_cons_of_pos (by
        simp only [decide_eq_true_eq, hc5]
        omega)]
    simp [addArea]
  have hperm : (findEmptyRegions width height pix 100 30).Perm
      [⟨0, 0, width, a / 5 * cellSize, width * (a / 5 * cellSize)⟩,
       ⟨0, (b + 4) / 5 * cellSize, width,
         ((height + 4) / 5 - (b + 4) / 5) * cellSize,
         width * (((height + 4) / 5 - (b + 4) / 5) * cellSize)⟩] := by
    rw [hout]
    exact List.perm_insertionSort areaDesc _
  refine ⟨by rw [hperm.length_eq]; rfl, ?_, ?_⟩
  · rw [hperm.mem_iff, hc5]
    simp
  · rw [hperm.mem_iff, hc5]
    simp

/-- A concrete 10×80 raster: white with a fully dark band on rows 30..49. -/
def bandPix : ℕ → ℕ → ℕ := fun y _ => if 30 ≤ y ∧ y < 50 then 0 else 255

/-- Witness for C6: the 10×80 banded raster yields exactly the two white
bands `{0,0,10,30}` and `{0,50,10,30}`. -/
theorem findEmptyRegions_darkBand_splits_witness :
    ((0 : ℕ) < 10 ∧ 30 ≤ 30 ∧ 30 + 20 ≤ 50 ∧ 50 + 30 ≤ 80 ∧
     (∀ y, y < 30 → ∀ x, x < 10 → 200 ≤ bandPix y x) ∧
     (∀ y, y < 50 → 30 ≤ y → ∀ x, x < 10 → bandPix y x < 200) ∧
     (∀ y, y < 80 → 50 ≤ y → ∀ x, x < 10 → 200 ≤ bandPix y x)) ∧
    ((findEmptyRegions 10 80 bandPix 100 30).length = 2 ∧
     (⟨0, 0, 10, 30 / 5 * 5, 10 * (30 / 5 * 5)⟩ : Region) ∈
       findEmptyRegions 10 80 bandPix 100 30 ∧
     (⟨0, (50 + 4) / 5 * 5, 10, ((80 + 4) / 5 - (50 + 4) / 5) * 5,
         10 * (((80 + 4) / 5 - (50 + 4) / 5) * 5)⟩ : Region) ∈
       findEmptyRegions 10 80 bandPix 100 30) :=
  ⟨⟨by norm_num, by norm_num, by norm_num, by norm_num,
    by decide, by decide, by decide⟩,
   findEmptyRegions_darkBand_splits 10 80 bandPix 30 50 (by norm_num)
     (by norm_num) (by norm_num) (by norm_num) (by decide) (by decide)
     (by decide)⟩

/-- JS `String.prototype.split(sep)` for a single-character separator (the
wrap loop's `paragraph.text.split(" ")`): splitting on every occurrence,
keeping empty chunks, `"" → [""]`. -/
def splitOnChar (sep : Char) : List Char → List (List Char)
  | [] => [[]]
  | c :: rest =>
      match splitOnChar sep rest with
      | [] => [[c]]
      | chunk :: chunks =>
          if c = sep then [] :: chunk :: chunks
          else (c :: chunk) :: chunks

/-- JS `String.prototype.indexOf(search, position)`: the first index at or
after `position` (clamped into `[0, length]`) where `search` occurs as a
substring, `-1` when there is none. -/
def jsIndexOfFrom (hay needle : List Char) (position : ℤ) : ℤ :=
  match (List.range (hay.length + 1)).find?
      (fun i => decide (min position.toNat hay.length ≤ i) &&
        needle.isPrefixOf (hay.drop i)) with
  | some i => (i : ℤ)
  | none => -1

/-- A word's color annotation within a line (the wrap loop's
`currentLineColors` entries `{text, start, color}`). -/
structure LineColor where
  text : List Char
  start : ℕ
  color : String
deriving DecidableEq, Repr

/-- A wrapped line as pushed by the wrap loop of `insertTextIntoRegions`
(text lines and paragraph-space markers in one shape; absent JS fields
default to `false`/`[]`, and the markers' constant `color: "#000000"`
field, read nowhere relevant, is dropped).  The `width` field is not
stored by the source: it records the loop's `currentWidth` accumulator at
push time, i.e. the line's estimated width (word widths plus inter-word
space widths via `calculateTextWidth`). -/
structure WrappedLine where
  text : List Char
  isNewParagraph : Bool
  isBold : Bool
  colorSegments : List LineColor
  isParagraphSpace : Bool
  width : ℚ
deriving DecidableEq, Repr

/-- The mutable locals of the per-paragraph wrap loop, plus the output
`wrappedLines` array. -/
structure WrapState where
  currentLine : List Char
  currentWidth : ℚ
  currentLineStart : ℤ
  currentLineColors : List LineColor
  lines : List WrappedLine
deriving DecidableEq, Repr

/-- The `isBold` lookup of the wrap loop (`src/index.js` lines 1526-1530
and 1566-1572): some bold segment covers the whole span. -/
def wordIsBold (para : Paragraph) (start : ℤ) (len : ℕ) : Bool :=
  para.boldSegments.any fun seg =>
    decide (seg.start ≤ start) &&
      decide (start + (len : ℤ) ≤ seg.start + seg.length)

/-- The word color lookup (`src/index.js` lines 1533-1538):
`find(...)?.color || "#000000"`. -/
def wordColorOf (para : Paragraph) (start : ℤ) (len : ℕ) : String :=
  ((para.colorSegments.find? fun seg =>
      decide (seg.start ≤ start) &&
        decide (start + (len : ℤ) ≤ seg.start + seg.length)).map
    ColorSeg.color).getD "#000000"

/-- One iteration of the wrap loop's `words.forEach` (`src/index.js`
lines 1524-1587).  The acceptance test is
`currentWidth + wordWidth <= effectiveWidth` — the space width is *not*
part of the test, though it is added to `currentWidth` afterwards. -/
def insertWrapWord (para : Paragraph)
    (effectiveWidth normalFontSize boldFontSize : ℚ)
    (st : WrapState) (word : List Char) : WrapState :=
  let wordStart := jsIndexOfFrom para.text word st.currentLineStart
  let isBold := wordIsBold para wordStart word.length
  let wordColor := wordColorOf para wordStart word.length
  let wordWidth := calculateTextWidth word
    (if isBold then boldFontSize else normalFontSize)
  let spaceWidth := calculateTextWidth [' '] normalFontSize
  if st.currentWidth + wordWidth ≤ effectiveWidth then
    let line' := if st.currentLine.isEmpty then word
      else st.currentLine ++ ' ' :: word
    let width' := (if st.currentLine.isEmpty then st.currentWidth
      else st.currentWidth + spaceWidth) + wordWidth
    { st with
      currentLine := line'
      currentWidth := width'
      currentLineColors := st.currentLineColors ++
        [⟨word, line'.length - word.length, wordColor⟩] }
  else
    { currentLine := word
      currentWidth := wordWidth
      currentLineStart := wordStart
      currentLineColors := [⟨word, 0, wordColor⟩]
      lines :=
        if st.currentLine.isEmpty then st.lines
        else st.lines ++
          [⟨st.currentLine, false,
            wordIsBold para st.currentLineStart st.currentLine.length,
            st.currentLineColors, false, st.currentWidth⟩] }

/-- The wrap of one paragraph (`src/index.js` lines 1517-1601), including
the final `if (currentLine)` push. -/
def insertWrapParagraph (para : Paragraph)
    (effectiveWidth normalFontSize boldFontSize : ℚ)
    (lines : List WrappedLine) : List WrappedLine :=
  let words := splitOnChar ' ' para.text
  let init : WrapState :=
    { currentLine := []
      currentWidth := 0
      currentLineStart := jsIndexOfFrom para.text (words.headD []) 0
      currentLineColors := []
      lines := lines }
  let final := words.foldl
    (insertWrapWord para effectiveWidth normalFontSize boldFontSize) init
  if final.currentLine.isEmpty then final.lines
  else final.lines ++
    [⟨final.currentLine, false,
      wordIsBold para final.currentLineStart final.currentLine.length,
      final.currentLineColors, false, final.currentWidth⟩]

/-- The whole word-wrap of the text-insertion pipeline (`src/index.js`
lines 1496-1613): `effectiveWidth = region.width * 0.85`, a
paragraph-space marker before every paragraph but the first, then the
greedy per-word accumulation. -/
def insertWrapLines (paragraphs : List Paragraph)
    (regionWidth normalFontSize boldFontSize : ℚ) : List WrappedLine :=
  let effectiveWidth := regionWidth * (17 / 20)
  (paragraphs.foldl
    (fun (acc : List WrappedLine × Bool) para =>
      let lines := if acc.2 then acc.1
        else acc.1 ++ [⟨[], true, false, [], true, 0⟩]
      (insertWrapParagraph para effectiveWidth normalFontSize boldFontSize
        lines, false))
    ([], true)).1

theorem charRatio_a : charRatio 'a' = 11 / 20 := by
  rw [charRatio, if_neg (by decide), if_neg (by decide), if_neg (by decide)]

theorem charRatio_space : charRatio ' ' = 3 / 10 := by
  rw [charRatio, if_pos (by decide)]

/-- Evaluation of the pipeline wrap on one paragraph `"aa aa"` with region
width `880/17` (so `effectiveWidth = 44`) and font sizes 20/22: a single
line `"aa aa"`, whose accumulated width is `22 + 6 + 22 = 50`. -/
theorem insertWrapLines_overflow_example :
    insertWrapLines [⟨['a', 'a', ' ', 'a', 'a'], [], []⟩] (880 / 17) 20 22 =
      [⟨['a', 'a', ' ', 'a', 'a'], false, false,
        [⟨['a', 'a'], 0, "#000000"⟩, ⟨['a', 'a'], 3, "#000000"⟩],
        false, 50⟩] := by
  have h1 : splitOnChar ' ' ['a', 'a', ' ', 'a', 'a'] =
      [['a', 'a'], ['a', 'a']] := by decide
  have h2 : jsIndexOfFrom ['a', 'a', ' ', 'a', 'a'] ['a', 'a'] 0 = 0 := by
    decide
  have hw : calculateTextWidth ['a', 'a'] (20 : ℚ) = 22 := by
    norm_num [calculateTextWidth, charRatio_a]
  have hs : calculateTextWidth [' '] (20 : ℚ) = 6 := by
    norm_num [calculateTextWidth, charRatio_space]
  norm_num [insertWrapLines, insertWrapParagraph, insertWrapWord, h1, h2,
    wordIsBold, wordColorOf, hw, hs, List.foldl_cons, List.foldl_nil]
  decide

/-- C1 counterexample: on the paragraph `"aa aa"`, region width `880/17`
(`effectiveWidth = 880/17 × 0.85 = 44`), `normalFontSize = 20`, the wrap of
the text-insertion pipeline produces a single line that contains two words
(a space) yet has estimated width `50 > 44`: the acceptance test
`currentWidth + wordWidth ≤ effectiveWidth` omits the space width, so the
claimed bound fails for multi-word lines. -/
theorem insertWrap_exceeds_effectiveWidth :
    (insertWrapLines [⟨['a', 'a', ' ', 'a', 'a'], [], []⟩]
        (880 / 17) 20 22).map WrappedLine.width = [50] ∧
    (insertWrapLines [⟨['a', 'a', ' ', 'a', 'a'], [], []⟩]
        (880 / 17) 20 22).map WrappedLine.text = [['a', 'a', ' ', 'a', 'a']] ∧
    (880 / 17 : ℚ) * (17 / 20) = 44 ∧
    ' ' ∈ (['a', 'a', ' ', 'a', 'a'] : List Char) ∧
    ¬ ((50 : ℚ) ≤ 44) := by
  rw [insertWrapLines_overflow_example]
  refine ⟨rfl, rfl, by norm_num, by decide, by norm_num⟩

/-- The amended per-line property: a pushed line either contains no space
(it is a single word, placed even when wider than the region) or its
accumulated width is at most `effectiveWidth + spaceWidth`. -/
def lineWidthOK (effectiveWidth spaceWidth : ℚ) (l : WrappedLine) : Prop :=
  ' ' ∉ l.text ∨ l.width ≤ effectiveWidth + spaceWidth

/-- The wrap-loop invariant: all pushed lines satisfy `lineWidthOK`, and the
line under construction does as well. -/
def wrapStateOK (effectiveWidth spaceWidth : ℚ) (st : WrapState) : Prop :=
  (∀ l ∈ st.lines, lineWidthOK effectiveWidth spaceWidth l) ∧
  (' ' ∉ st.currentLine ∨ st.currentWidth ≤ effectiveWidth + spaceWidth)

theorem insertWrapWord_ok (para : Paragraph) (eff nf bf : ℚ)
    (st : WrapState) (word : List Char) (hw : ' ' ∉ word)
    (hst : wrapStateOK eff (calculateTextWidth [' '] nf) st) :
    wrapStateOK eff (calculateTextWidth [' '] nf)
      (insertWrapWord para eff nf bf st word) := by
  obtain ⟨hlines, hcur⟩ := hst
  simp only [insertWrapWord]
  set ww := calculateTextWidth word
    (if wordIsBold para (jsIndexOfFrom para.text word st.currentLineStart)
        word.length then bf else nf) with hww
  by_cases hacc : st.currentWidth + ww ≤ eff
  · -- accepted: the word joins the current line
    rw [if_pos hacc]
    by_cases he : st.currentLine.isEmpty
    · exact ⟨hlines, Or.inl (by simp [he, hw])⟩
    · refine ⟨hlines, Or.inr ?_⟩
      have he' : st.currentLine.isEmpty = false := by
        revert he
        cases st.currentLine.isEmpty <;> simp
      simp only [he', Bool.false_eq_true, if_false]
      linarith
  · -- rejected: the current line is flushed, the word starts a new line
    rw [if_neg hacc]
    refine ⟨?_, Or.inl hw⟩
    intro l hl
    by_cases he : st.currentLine.isEmpty
    · simp only [he, if_true] at hl
      exact hlines l hl
    · simp only [he, if_false] at hl
      rcases List.mem_append.1 hl with h | h
      · exact hlines l h
      · rcases List.mem_singleton.1 h with rfl
        exact hcur

theorem insertWrapWords_ok (para : Paragraph) (eff nf bf : ℚ)
    (words : List (List Char)) :
    ∀ (st : WrapState), (∀ w ∈ words, ' ' ∉ w) →
    wrapStateOK eff (calculateTextWidth [' '] nf) st →
    wrapStateOK eff (calculateTextWidth [' '] nf)
      (words.foldl (insertWrapWord para eff nf bf) st) := by
  induction words with
  | nil => intro st _ hst; exact hst
  | cons w ws ih =>
      intro st hws hst
      rw [List.foldl_cons]
      exact ih _ (fun v hv => hws v (List.mem_cons_of_mem w hv))
        (insertWrapWord_ok para eff nf bf st w
          (hws w (List.mem_cons_self w ws)) hst)

theorem splitOnChar_ne_nil (sep : Char) (s : List Char) :
    splitOnChar sep s ≠ [] := by
  cases s with
  | nil => simp [splitOnChar]
  | cons c rest =>
      simp only [splitOnChar]
      cases hsp : splitOnChar sep rest with
      | nil => simp
      | cons ch chs =>
          dsimp only
          split <;> simp

theorem splitOnChar_no_sep (sep : Char) (s : List Char) :
    ∀ chunk ∈ splitOnChar sep s, sep ∉ chunk := by
  induction s with
  | nil =>
      intro chunk h
      simp only [splitOnChar, List.mem_singleton] at h
      subst h
      simp
  | cons c rest ih =>
      intro chunk h
      simp only [splitOnChar] at h
      cases hsp : splitOnChar sep rest with
      | nil => exact absurd hsp (splitOnChar_ne_nil sep rest)
      | cons ch chs =>
          simp only [hsp] at h
          by_cases hcs : c = sep
          · rw [if_pos hcs] at h
            rcases List.mem_cons.1 h with rfl | h2
            · simp
            · exact ih chunk (by rw [hsp]; exact h2)
          · rw [if_neg hcs] at h
            rcases List.mem_cons.1 h with rfl | h2
            · intro hmem
              rcases List.mem_cons.1 hmem with hh | hmem2
              · exact hcs hh.symm
              · exact ih ch (by rw [hsp]; exact List.mem_cons_self ch chs)
                  hmem2
            · exact ih chunk (by rw [hsp]; exact List.mem_cons_of_mem ch h2)

theorem insertWrapParagraph_ok (para : Paragraph) (eff nf bf : ℚ)
    (lines : List WrappedLine)
    (hl : ∀ l ∈ lines, lineWidthOK eff (calculateTextWidth [' '] nf) l) :
    ∀ l ∈ insertWrapParagraph para eff nf bf lines,
      lineWidthOK eff (calculateTextWidth [' '] nf) l := by
  simp only [insertWrapParagraph]
  have hfin := insertWrapWords_ok para eff nf bf (splitOnChar ' ' para.text)
    ⟨[], 0, jsIndexOfFrom para.text
        ((splitOnChar ' ' para.text).headD []) 0, [], lines⟩
    (fun w hw => splitOnChar_no_sep ' ' para.text w hw)
    ⟨hl, Or.inl (by simp)⟩
  split
  · exact hfin.1
  · intro l hl2
    rcases List.mem_append.1 hl2 with h | h
    · exact hfin.1 l h
    · rcases List.mem_singleton.1 h with rfl
      exact hfin.2

/-- C1 (amended): in the word wrap of the text-insertion pipeline, every
produced line either contains no space (a single word — placed even when
its own width exceeds `effectiveWidth`) or has accumulated width at most
`effectiveWidth + spaceWidth`, where
`effectiveWidth = region.width × 0.85` and
`spaceWidth = calculateTextWidth(" ", normalFontSize)`: a word is appended
while `currentWidth + wordWidth ≤ effectiveWidth` — without the space
width, which is nevertheless added to the line. -/
theorem insertWrap_line_width_bound (paragraphs : List Paragraph)
    (regionWidth normalFontSize boldFontSize : ℚ) :
    ∀ l ∈ insertWrapLines paragraphs regionWidth normalFontSize boldFontSize,
      ' ' ∉ l.text ∨
      l.width ≤ regionWidth * (17 / 20) +
        calculateTextWidth [' '] normalFontSize := by
  simp only [insertWrapLines]
  have main : ∀ (ps : List Paragraph) (acc : List WrappedLine × Bool),
      (∀ l ∈ acc.1,
        lineWidthOK (regionWidth * (17 / 20))
          (calculateTextWidth [' '] normalFontSize) l) →
      ∀ l ∈ (ps.foldl
        (fun (acc : List WrappedLine × Bool) para =>
          let lines := if acc.2 then acc.1
            else acc.1 ++ [⟨[], true, false, [], true, 0⟩]
          (insertWrapParagraph para (regionWidth * (17 / 20)) normalFontSize
            boldFontSize lines, false)) acc).1,
        lineWidthOK (regionWidth * (17 / 20))
          (calculateTextWidth [' '] normalFontSize) l := by
    intro ps
    induction ps with
    | nil => intro acc hacc; exact hacc
    | cons p ps ih =>
        intro acc hacc
        rw [List.foldl_cons]
        refine ih _ ?_
        refine insertWrapParagraph_ok p _ normalFontSize boldFontSize _ ?_
        split
        · exact hacc
        · intro l hl
          rcases List.mem_append.1 hl with h | h
          · exact hacc l h
          · rcases List.mem_singleton.1 h with rfl
            exact Or.inl (by simp)
  exact main paragraphs ([], true) (by simp)

/-- Witness for the amended C1 at the counterexample input: the two-word
line of width 50 satisfies the amended bound `44 + 6 = 50`. -/
theorem insertWrap_line_width_bound_witness :
    (⟨['a', 'a', ' ', 'a', 'a'], false, false,
      [⟨['a', 'a'], 0, "#000000"⟩, ⟨['a', 'a'], 3, "#000000"⟩],
      false, 50⟩ : WrappedLine) ∈
      insertWrapLines [⟨['a', 'a', ' ', 'a', 'a'], [], []⟩] (880 / 17) 20 22 ∧
    (' ' ∉ (['a', 'a', ' ', 'a', 'a'] : List Char) ∨
      (50 : ℚ) ≤ 880 / 17 * (17 / 20) + calculateTextWidth [' '] 20) :=
  ⟨by rw [insertWrapLines_overflow_example]; exact List.mem_singleton.2 rfl,
   insertWrap_line_width_bound [⟨['a', 'a', ' ', 'a', 'a'], [], []⟩]
     (880 / 17) 20 22
     ⟨['a', 'a', ' ', 'a', 'a'], false, false,
       [⟨['a', 'a'], 0, "#000000"⟩, ⟨['a', 'a'], 3, "#000000"⟩], false, 50⟩
     (by rw [insertWrapLines_overflow_example]; exact List.mem_singleton.2 rfl)⟩

/-- The result record of `calculateOptimalFontSize`. -/
structure FontPlan where
  normalFontSize : ℚ
  boldFontSize : ℚ
  lineSpacingRatio : ℚ
  estimatedLines : ℕ
deriving DecidableEq, Repr

/-- A region rectangle with JS-number fields, as the solver consumes it. -/
structure Rect where
  x : ℚ
  y : ℚ
  width : ℚ
  height : ℚ
deriving DecidableEq, Repr

/-- The state of the solver's character-level wrap simulation for one trial
font size: the outer `testLines` / `totalHeight` / `fitsFailed`, the
per-paragraph `currentLine` / `lineWidth` / `position`, and a `broken` flag
modelling the inner loop's `break`. -/
structure CharLoopState where
  currentLine : List Char
  lineWidth : ℚ
  position : ℕ
  testLines : List (List Char)
  totalHeight : ℚ
  fitsFailed : Bool
  broken : Bool
deriving DecidableEq, Repr

/-- One character of the simulation loop (`src/index.js` lines 1262-1288):
append while `lineWidth + charWidth <= effectiveWidth`, otherwise flush the
line, add `lineHeight`, and fail (with `break`) once
`totalHeight > effectiveHeight`. -/
def trialCharStep (para : Paragraph)
    (effectiveWidth effectiveHeight lineHeight fontSize boldFontSize : ℚ)
    (st : CharLoopState) (c : Char) : CharLoopState :=
  if st.broken then st
  else
    let isBold := para.boldSegments.any fun seg =>
      decide (seg.start ≤ (st.position : ℤ)) &&
        decide ((st.position : ℤ) < seg.start + seg.length)
    let charWidth := calculateTextWidth [c]
      (if isBold then boldFontSize else fontSize)
    if st.lineWidth + charWidth ≤ effectiveWidth then
      { st with currentLine := st.currentLine ++ [c],
                lineWidth := st.lineWidth + charWidth,
                position := st.position + 1 }
    else if st.currentLine.isEmpty then
      { st with currentLine := [c], lineWidth := charWidth,
                position := st.position + 1 }
    else if effectiveHeight < st.totalHeight + lineHeight then
      { st with testLines := st.testLines ++ [st.currentLine],
                totalHeight := st.totalHeight + lineHeight,
                fitsFailed := true, broken := true }
    else
      { currentLine := [c], lineWidth := charWidth,
        position := st.position + 1,
        testLines := st.testLines ++ [st.currentLine],
        totalHeight := st.totalHeight + lineHeight,
        fitsFailed := st.fitsFailed, broken := false }

/-- The running outer state of one trial: `testLines`, `totalHeight`,
`fitsFailed`, plus the paragraph index of the `forEach`. -/
structure TrialState where
  testLines : List (List Char)
  totalHeight : ℚ
  fitsFailed : Bool
deriving DecidableEq, Repr

/-- One paragraph of the simulation (`src/index.js` lines 1252-1299): the
inter-paragraph half line height, the character loop, then — unless the
trial has already failed — the flush of the trailing line. -/
def trialParagraphStep (effectiveWidth effectiveHeight lineHeight
    fontSize boldFontSize : ℚ) (acc : TrialState × ℕ)
    (para : Paragraph) : TrialState × ℕ :=
  let st := acc.1
  let index := acc.2
  let height0 := if 0 < index then st.totalHeight + lineHeight * (1 / 2)
    else st.totalHeight
  let cs := para.text.foldl
    (trialCharStep para effectiveWidth effectiveHeight lineHeight fontSize
      boldFontSize)
    ⟨[], 0, 0, st.testLines, height0, st.fitsFailed, false⟩
  if cs.fitsFailed then (⟨cs.testLines, cs.totalHeight, true⟩, index + 1)
  else if cs.currentLine.isEmpty then
    (⟨cs.testLines, cs.totalHeight, cs.fitsFailed⟩, index + 1)
  else
    (⟨cs.testLines ++ [cs.currentLine], cs.totalHeight + lineHeight,
      if effectiveHeight < cs.totalHeight + lineHeight then true
      else cs.fitsFailed⟩, index + 1)

/-- One full trial of the solver at font size `fontSize`
(`src/index.js` lines 1241-1299): `boldFontSize = fontSize × 1.1`,
`lineHeight = fontSize × 1.2`, then the character-level wrap simulation
over all paragraphs. -/
def solverTrial (paragraphs : List Paragraph) (effectiveWidth
    effectiveHeight : ℚ) (fontSize : ℤ) : TrialState :=
  (paragraphs.foldl
    (trialParagraphStep effectiveWidth effectiveHeight
      ((fontSize : ℚ) * (6 / 5)) (fontSize : ℚ) ((fontSize : ℚ) * (11 / 10)))
    (⟨[], 0, false⟩, 0)).1

theorem floor_mid_ge (m M : ℤ) (h : m ≤ M) :
    m ≤ ⌊(((m + M : ℤ) : ℚ)) / 2⌋ := by
  have h' : (m : ℚ) ≤ (M : ℚ) := by exact_mod_cast h
  rw [Int.le_floor]
  push_cast
  linarith

theorem floor_mid_le (m M : ℤ) (h : m ≤ M) :
    ⌊(((m + M : ℤ) : ℚ)) / 2⌋ ≤ M := by
  have h' : (m : ℚ) ≤ (M : ℚ) := by exact_mod_cast h
  have h1 : (((m + M : ℤ) : ℚ)) / 2 ≤ ((M : ℤ) : ℚ) := by
    push_cast
    linarith
  have := Int.floor_mono h1
  rwa [Int.floor_intCast] at this

/-- The binary-search loop of `calculateOptimalFontSize`
(`src/index.js` lines 1240-1317): guard
`minSize <= maxSize && iterations < maxIterations` with
`maxIterations = 10`; midpoint `Math.floor((minSize + maxSize) / 2)`; on a
fitting trial record it and move `minSize` up, otherwise move `maxSize`
down.  Returns `(bestSize, bestLines, iterations)`. -/
def solverLoop (paragraphs : List Paragraph)
    (effectiveWidth effectiveHeight : ℚ)
    (minSize maxSize bestSize : ℤ) (bestLines : List (List Char))
    (iterations : ℕ) : ℤ × List (List Char) × ℕ :=
  if h : minSize ≤ maxSize ∧ iterations < 10 then
    let fontSize := ⌊(((minSize + maxSize : ℤ) : ℚ)) / 2⌋
    let t := solverTrial paragraphs effectiveWidth effectiveHeight fontSize
    if t.fitsFailed = false ∧ t.totalHeight ≤ effectiveHeight ∧
        0 < t.testLines.length then
      solverLoop paragraphs effectiveWidth effectiveHeight
        (fontSize + 1) maxSize fontSize t.testLines (iterations + 1)
    else
      solverLoop paragraphs effectiveWidth effectiveHeight
        minSize (fontSize - 1) bestSize bestLines (iterations + 1)
  else
    (bestSize, bestLines, iterations)
termination_by (maxSize + 1 - minSize).toNat
decreasing_by
  · have h1 := floor_mid_ge minSize maxSize h.1
    have h2 := floor_mid_le minSize maxSize h.1
    omega
  · have h1 := floor_mid_ge minSize maxSize h.1
    have h2 := floor_mid_le minSize maxSize h.1
    omega

/-- The solver's seed `initialSize` (`src/index.js` lines 1213-1230):
`min(floor(effectiveHeight / (paragraphs.length × 1.5)),
floor(effectiveWidth / (20 + boldRatio × 5)))` with
`boldRatio = boldChars / totalChars` (the JS `NaN` of an empty text is not
representable in `ℚ`; `ℚ` division by zero yields 0 there). -/
def solverInitialSize (region : Rect) (paragraphs : List Paragraph) : ℤ :=
  let effectiveWidth := region.width * (17 / 20)
  let effectiveHeight := region.height * (9 / 10)
  let totalChars : ℕ := (paragraphs.map fun p => p.text.length).sum
  let boldChars : ℤ :=
    (paragraphs.map fun p => (p.boldSegments.map Seg.length).sum).sum
  let boldRatio : ℚ := (boldChars : ℚ) / (totalChars : ℚ)
  min ⌊effectiveHeight / ((paragraphs.length : ℚ) * (3 / 2))⌋
    ⌊effectiveWidth / (20 + boldRatio * 5)⌋

/-- The complete run of the binary search from its initial bounds. -/
def solverResult (region : Rect) (paragraphs : List Paragraph) :
    ℤ × List (List Char) × ℕ :=
  solverLoop paragraphs (region.width * (17 / 20)) (region.height * (9 / 10))
    14 72 (solverInitialSize region paragraphs) [] 0

/-- The try-block body of `calculateOptimalFontSize` (`src/index.js`
lines 1208-1329).  (The unused locals `finalLineHeight`, `totalTextHeight`
and `fillRatio` of the source are not modelled; the `imageBuffer` and
`text` parameters are accepted by the source and never read.) -/
def calculateOptimalFontSizeBody (region : Rect)
    (paragraphs : List Paragraph) : FontPlan :=
  let r := solverResult region paragraphs
  { normalFontSize := (r.1 : ℚ)
    boldFontSize := (r.1 : ℚ) * (11 / 10)
    lineSpacingRatio := 6 / 5
    estimatedLines := r.2.1.length }

/-- The try block as a fallible computation: the body never throws in this
embedding, but the JS body can (e.g. on malformed paragraph records). -/
def calculateOptimalFontSizeTry (region : Rect)
    (paragraphs : List Paragraph) : Except String FontPlan :=
  Except.ok (calculateOptimalFontSizeBody region paragraphs)

/-- The fallback of the catch branch (`src/index.js` lines 1330-1338):
`{normalFontSize: 20, boldFontSize: 22, lineSpacingRatio: 1.2,
estimatedLines: paragraphs.length}`. -/
def fontSizeFallback (paragraphCount : ℕ) : FontPlan :=
  ⟨20, 22, 6 / 5, paragraphCount⟩

/-- The catch wrapper of `calculateOptimalFontSize`: the body's result when
it returns, the fallback otherwise. -/
def catchFontSize (body : Except String FontPlan)
    (paragraphs : List Paragraph) : FontPlan :=
  match body with
  | Except.ok r => r
  | Except.error _ => fontSizeFallback paragraphs.length

/-- `calculateOptimalFontSize(imageBuffer, region, text, paragraphs)`. -/
def calculateOptimalFontSize (region : Rect)
    (paragraphs : List Paragraph) : FontPlan :=
  catchFontSize (calculateOptimalFontSizeTry region paragraphs) paragraphs

/-- C8: when the font-size computation throws, `calculateOptimalFontSize`
catches the exception and returns exactly
`{normalFontSize: 20, boldFontSize: 22, lineSpacingRatio: 1.2,
estimatedLines: paragraphs.length}` instead of propagating it. -/
theorem calculateOptimalFontSize_catch (e : String)
    (paragraphs : List Paragraph) :
    catchFontSize (Except.error e) paragraphs =
      ⟨20, 22, 6 / 5, paragraphs.length⟩ := rfl

theorem solverLoop_fit_step (p : List Paragraph) (effW effH : ℚ)
    (m M bs : ℤ) (bl : List (List Char)) (it : ℕ)
    (hg : m ≤ M) (hit : it < 10)
    (ht : (solverTrial p effW effH
        ⌊(((m + M : ℤ) : ℚ)) / 2⌋).fitsFailed = false ∧
      (solverTrial p effW effH
        ⌊(((m + M : ℤ) : ℚ)) / 2⌋).totalHeight ≤ effH ∧
      0 < (solverTrial p effW effH
        ⌊(((m + M : ℤ) : ℚ)) / 2⌋).testLines.length) :
    solverLoop p effW effH m M bs bl it =
      solverLoop p effW effH (⌊(((m + M : ℤ) : ℚ)) / 2⌋ + 1) M
        ⌊(((m + M : ℤ) : ℚ)) / 2⌋
        (solverTrial p effW effH ⌊(((m + M : ℤ) : ℚ)) / 2⌋).testLines
        (it + 1) := by
  rw [solverLoop, dif_pos ⟨hg, hit⟩]
  exact if_pos ht

theorem solverLoop_notfit_step (p : List Paragraph) (effW effH : ℚ)
    (m M bs : ℤ) (bl : List (List Char)) (it : ℕ)
    (hg : m ≤ M) (hit : it < 10)
    (ht : ¬ ((solverTrial p effW effH
        ⌊(((m + M : ℤ) : ℚ)) / 2⌋).fitsFailed = false ∧
      (solverTrial p effW effH
        ⌊(((m + M : ℤ) : ℚ)) / 2⌋).totalHeight ≤ effH ∧
      0 < (solverTrial p effW effH
        ⌊(((m + M : ℤ) : ℚ)) / 2⌋).testLines.length)) :
    solverLoop p effW effH m M bs bl it =
      solverLoop p effW effH m (⌊(((m + M : ℤ) : ℚ)) / 2⌋ - 1) bs bl
        (it + 1) := by
  rw [solverLoop, dif_pos ⟨hg, hit⟩]
  exact if_neg ht

theorem solverLoop_fail_step (p : List Paragraph) (effW effH : ℚ)
    (m M bs : ℤ) (bl : List (List Char)) (it : ℕ)
    (hg : m ≤ M) (hit : it < 10)
    (ht : (solverTrial p effW effH
      ⌊(((m + M : ℤ) : ℚ)) / 2⌋).fitsFailed = true) :
    solverLoop p effW effH m M bs bl it =
      solverLoop p effW effH m (⌊(((m + M : ℤ) : ℚ)) / 2⌋ - 1) bs bl
        (it + 1) :=
  solverLoop_notfit_step p effW effH m M bs bl it hg hit
    (fun hconj => Bool.noConfusion (ht.symm.trans hconj.1))

theorem solverLoop_stop (p : List Paragraph) (effW effH : ℚ)
    (m M bs : ℤ) (bl : List (List Char)) (it : ℕ)
    (hg : ¬(m ≤ M ∧ it < 10)) :
    solverLoop p effW effH m M bs bl it = (bs, bl, it) := by
  rw [solverLoop, dif_neg hg]

theorem solverLoop_bounds (p : List Paragraph) (effW effH : ℚ) (n : ℕ) :
    ∀ (m M bs : ℤ) (bl : List (List Char)) (it : ℕ),
      (M + 1 - m).toNat ≤ n → 14 ≤ m → M ≤ 72 → it ≤ 10 →
      ((solverLoop p effW effH m M bs bl it).1 = bs ∨
        (14 ≤ (solverLoop p effW effH m M bs bl it).1 ∧
          (solverLoop p effW effH m M bs bl it).1 ≤ 72)) ∧
      (solverLoop p effW effH m M bs bl it).2.2 ≤ 10 := by
  induction n with
  | zero =>
      intro m M bs bl it hn h14 h72 hit
      rw [solverLoop_stop p effW effH m M bs bl it (by omega)]
      exact ⟨Or.inl rfl, hit⟩
  | succ n ih =>
      intro m M bs bl it hn h14 h72 hit
      by_cases hg : m ≤ M ∧ it < 10
      · have hf1 := floor_mid_ge m M hg.1
        have hf2 := floor_mid_le m M hg.1
        by_cases hfit : (solverTrial p effW effH
            ⌊(((m + M : ℤ) : ℚ)) / 2⌋).fitsFailed = false ∧
          (solverTrial p effW effH
            ⌊(((m + M : ℤ) : ℚ)) / 2⌋).totalHeight ≤ effH ∧
          0 < (solverTrial p effW effH
            ⌊(((m + M : ℤ) : ℚ)) / 2⌋).testLines.length
        · rw [solverLoop_fit_step p effW effH m M bs bl it hg.1 hg.2 hfit]
          obtain ⟨h1, h2⟩ := ih (⌊(((m + M : ℤ) : ℚ)) / 2⌋ + 1) M
            ⌊(((m + M : ℤ) : ℚ)) / 2⌋
            (solverTrial p effW effH ⌊(((m + M : ℤ) : ℚ)) / 2⌋).testLines
            (it + 1) (by omega) (by omega) h72 (by omega)
          refine ⟨?_, h2⟩
          rcases h1 with he | hr
          · exact Or.inr ⟨by rw [he]; omega, by rw [he]; omega⟩
          · exact Or.inr hr
        · rw [solverLoop_notfit_step p effW effH m M bs bl it hg.1 hg.2 hfit]
          exact ih m (⌊(((m + M : ℤ) : ℚ)) / 2⌋ - 1) bs bl (it + 1)
            (by omega) h14 (by omega) (by omega)
      · rw [solverLoop_stop p effW effH m M bs bl it hg]
        exact ⟨Or.inl rfl, hit⟩

/-- C2 (amended): the solver never exceeds 10 binary-search trial
iterations and never raises; its `normalFontSize` is either the midpoint
of the last fitting trial — then in `[14, 72]` — or, when no trial in
range fits, the unclamped initial seed `initialSize = min(floor(effHeight /
(paragraphCount × 1.5)), floor(effWidth / (20 + boldRatio × 5)))`, which
can lie outside `[14, 72]`. -/
theorem calculateOptimalFontSize_bounds (region : Rect)
    (paragraphs : List Paragraph) :
    (solverResult region paragraphs).2.2 ≤ 10 ∧
    ((calculateOptimalFontSize region paragraphs).normalFontSize =
        ((solverInitialSize region paragraphs : ℤ) : ℚ) ∨
      (14 ≤ (calculateOptimalFontSize region paragraphs).normalFontSize ∧
        (calculateOptimalFontSize region paragraphs).normalFontSize ≤ 72)) := by
  have hsr : solverResult region paragraphs =
      solverLoop paragraphs (region.width * (17 / 20))
        (region.height * (9 / 10)) 14 72
        (solverInitialSize region paragraphs) [] 0 := rfl
  have hN : (calculateOptimalFontSize region paragraphs).normalFontSize =
      (((solverResult region paragraphs).1 : ℤ) : ℚ) := rfl
  obtain ⟨h1, h2⟩ := solverLoop_bounds paragraphs
    (region.width * (17 / 20)) (region.height * (9 / 10)) 59 14 72
    (solverInitialSize region paragraphs) [] 0 (by omega) (by omega)
    (by omega) (by omega)
  refine ⟨by rw [hsr]; exact h2, ?_⟩
  rcases h1 with he | hr
  · left
    rw [hN, hsr]
    exact_mod_cast he
  · right
    rw [hN, hsr]
    constructor
    · exact_mod_cast hr.1
    · exact_mod_cast hr.2

/-- C2 counterexample: on the 10×10 region with the single paragraph
`"aa"`, no trial size fits; after 5 iterations the solver returns the seed
`bestSize = initialSize = min(⌊6⌋, ⌊0.425⌋) = 0`, so
`normalFontSize = 0 ∉ [14, 72]`. -/
theorem calculateOptimalFontSize_out_of_range :
    (calculateOptimalFontSize ⟨0, 0, 10, 10⟩
      [⟨['a', 'a'], [], []⟩]).normalFontSize = 0 ∧ ¬ ((14 : ℚ) ≤ 0) := by
  have htrial : ∀ s : ℤ, s = 43 ∨ s = 28 ∨ s = 20 ∨ s = 16 ∨ s = 14 →
      (solverTrial [⟨['a', 'a'], [], []⟩] (17 / 2 : ℚ) 9 s).fitsFailed =
        true := by
    intro s hs
    rcases hs with rfl | rfl | rfl | rfl | rfl <;>
      norm_num [solverTrial, trialParagraphStep, trialCharStep,
        List.foldl_cons, List.foldl_nil, calculateTextWidth, charRatio_a]
  have f1 : ⌊(((14 + 72 : ℤ) : ℚ)) / 2⌋ = 43 := by norm_num
  have f2 : ⌊(((14 + 42 : ℤ) : ℚ)) / 2⌋ = 28 := by norm_num
  have f3 : ⌊(((14 + 27 : ℤ) : ℚ)) / 2⌋ = 20 := by norm_num
  have f4 : ⌊(((14 + 19 : ℤ) : ℚ)) / 2⌋ = 16 := by norm_num
  have f5 : ⌊(((14 + 15 : ℤ) : ℚ)) / 2⌋ = 14 := by norm_num
  have hres : solverResult ⟨0, 0, 10, 10⟩ [⟨['a', 'a'], [], []⟩] =
      (0, [], 5) := by
    have e0 : solverResult ⟨0, 0, 10, 10⟩ [⟨['a', 'a'], [], []⟩] =
        solverLoop [⟨['a', 'a'], [], []⟩] (17 / 2) 9 14 72 0 [] 0 := by
      norm_num [solverResult, solverInitialSize]
    rw [e0]
    rw [solverLoop_fail_step _ _ _ 14 72 0 [] 0 (by norm_num) (by norm_num)
      (by rw [f1]; exact htrial 43 (Or.inl rfl)), f1]
    norm_num
    rw [solverLoop_fail_step _ _ _ 14 42 0 [] 1 (by norm_num) (by norm_num)
      (by rw [f2]; exact htrial 28 (by norm_num)), f2]
    norm_num
    rw [solverLoop_fail_step _ _ _ 14 27 0 [] 2 (by norm_num) (by norm_num)
      (by rw [f3]; exact htrial 20 (by norm_num)), f3]
    norm_num
    rw [solverLoop_fail_step _ _ _ 14 19 0 [] 3 (by norm_num) (by norm_num)
      (by rw [f4]; exact htrial 16 (by norm_num)), f4]
    norm_num
    rw [solverLoop_fail_step _ _ _ 14 15 0 [] 4 (by norm_num) (by norm_num)
      (by rw [f5]; exact htrial 14 (by norm_num)), f5]
    norm_num
    rw [solverLoop_stop _ _ _ 14 13 0 [] 5 (by norm_num)]
  refine ⟨?_, by norm_num⟩
  simp [calculateOptimalFontSize, calculateOptimalFontSizeTry, catchFontSize,
    calculateOptimalFontSizeBody, hres]

/-- C10: the layout computation is deterministic.  `findEmptyRegions`,
`calculateTextWidth` and `calculateOptimalFontSize` are pure functions of
their arguments — the source reads no clock, randomness or shared mutable
state in them — so two runs on equal inputs return equal outputs. -/
theorem layout_deterministic
    (W1 H1 : ℕ) (pix1 : ℕ → ℕ → ℕ) (mw1 mh1 : ℕ) (t1 : List Char)
    (f1 : ℚ) (r1 : Rect) (ps1 : List Paragraph)
    (W2 H2 : ℕ) (pix2 : ℕ → ℕ → ℕ) (mw2 mh2 : ℕ) (t2 : List Char)
    (f2 : ℚ) (r2 : Rect) (ps2 : List Paragraph)
    (him : W1 = W2 ∧ H1 = H2 ∧ pix1 = pix2 ∧ mw1 = mw2 ∧ mh1 = mh2)
    (htx : t1 = t2 ∧ f1 = f2) (hpr : r1 = r2 ∧ ps1 = ps2) :
    findEmptyRegions W1 H1 pix1 mw1 mh1 =
      findEmptyRegions W2 H2 pix2 mw2 mh2 ∧
    calculateTextWidth t1 f1 = calculateTextWidth t2 f2 ∧
    calculateOptimalFontSize r1 ps1 = calculateOptimalFontSize r2 ps2 := by
  obtain ⟨rfl, rfl, rfl, rfl, rfl⟩ := him
  obtain ⟨rfl, rfl⟩ := htx
  obtain ⟨rfl, rfl⟩ := hpr
  exact ⟨rfl, rfl, rfl⟩

/-- Witness for C10 at concrete inputs. -/
theorem layout_deterministic_witness :
    ((10 : ℕ) = 10 ∧ (30 : ℕ) = 30 ∧ allWhitePix = allWhitePix ∧
      (100 : ℕ) = 100 ∧ (30 : ℕ) = 30) ∧
    ((['a'] : List Char) = ['a'] ∧ (20 : ℚ) = 20) ∧
    ((⟨0, 0, 10, 10⟩ : Rect) = ⟨0, 0, 10, 10⟩ ∧
      ([] : List Paragraph) = []) ∧
    (findEmptyRegions 10 30 allWhitePix 100 30 =
        findEmptyRegions 10 30 allWhitePix 100 30 ∧
      calculateTextWidth ['a'] 20 = calculateTextWidth ['a'] 20 ∧
      calculateOptimalFontSize ⟨0, 0, 10, 10⟩ [] =
        calculateOptimalFontSize ⟨0, 0, 10, 10⟩ []) :=
  ⟨⟨rfl, rfl, rfl, rfl, rfl⟩, ⟨rfl, rfl⟩, ⟨rfl, rfl⟩,
   layout_deterministic 10 30 allWhitePix 100 30 ['a'] 20 ⟨0, 0, 10, 10⟩ []
     10 30 allWhitePix 100 30 ['a'] 20 ⟨0, 0, 10, 10⟩ []
     ⟨rfl, rfl, rfl, rfl, rfl⟩ ⟨rfl, rfl⟩ ⟨rfl, rfl⟩⟩

end InsertImage
